import Mathlib

/-!
Verification of the collaborative code-editor session server
(`src/server/server.js`, with the alternate draft in `src/unnamed/part_000`).

The JavaScript `Map` is modelled as an insertion-ordered association list:
`set` on a present key replaces the value in place, on an absent key appends;
`delete` removes the entry; `size` is the list length.  `Date.now()` values
are passed in explicitly as `Nat` arguments.
-/

namespace CodeEditor

/-- JS `Map.prototype.set`: replace in place when the key is present,
append otherwise (insertion order is preserved). -/
def mapSet {α : Type} (m : List (String × α)) (k : String) (v : α) :
    List (String × α) :=
  if (m.lookup k).isSome then
    m.map (fun p => if p.1 = k then (k, v) else p)
  else
    m ++ [(k, v)]

/-- JS `Map.prototype.delete` (ignoring the returned boolean). -/
def mapDelete {α : Type} (m : List (String × α)) (k : String) :
    List (String × α) :=
  m.filter (fun p => p.1 ≠ k)

/-- JS `Array.prototype.slice(-n)` for a nonnegative count `n`:
the last `n` elements, except that `slice(-0)` is `slice(0)`, a full copy. -/
def jsSliceLast {α : Type} (n : Nat) (l : List α) : List α :=
  if n = 0 then l else l.drop (l.length - n)

/-- Configuration relevant to the Room operations
(`config.roomHistoryLimit`, `config.chatMessageLimit`; server.js lines 20-30). -/
structure Config where
  roomHistoryLimit : Nat
  chatMessageLimit : Nat
deriving DecidableEq, Repr

/-- A file record as stored in `room.files` (server.js lines 54-58, 130-134). -/
structure File where
  name : String
  content : String
  language : String
deriving DecidableEq, Repr

/-- A cursor position as sent by a client (`{ line, ch }`). -/
structure CursorPos where
  line : Nat
  ch : Nat
deriving DecidableEq, Repr

/-- A user record (server.js lines 63-69). -/
structure User where
  id : String
  username : String
  color : String
  joinedAt : Nat
  cursor : CursorPos
deriving DecidableEq, Repr

/-- A stored cursor entry: the spread `{...cursor, userId, timestamp}`
of server.js lines 101-105. -/
structure CursorEntry where
  line : Nat
  ch : Nat
  userId : String
  timestamp : Nat
deriving DecidableEq, Repr

/-- The `type` field of an edit descriptor.  In JS it is an arbitrary value;
only `'insert'` and `'delete'` are distinguished, anything else (including
`undefined` on a history entry) falls through both comparisons. -/
inductive OpType where
  | insert
  | delete
  | other
deriving DecidableEq, Repr

/-- An edit descriptor as consumed by `transformOperation`
(server.js lines 174-190): `type`, `position`, `timestamp`, and the
payload fields `text` (insert) / `length` (delete). -/
structure EditOp where
  type : OpType
  position : Int
  timestamp : Nat
  text : String
  length : Nat
deriving DecidableEq, Repr

/-- The operation object stored in a history entry:
`{...transformedOp, userId, username}` (server.js lines 235-239). -/
structure StoredOp extends EditOp where
  userId : String
  username : String
deriving DecidableEq, Repr

/-- A history entry (server.js lines 86-91).  The alternate draft
(`part_000` lines 69-73) records no descriptor, hence the `Option`. -/
structure HistoryEntry where
  timestamp : Nat
  operation : Option StoredOp
  content : String
  file : String
deriving DecidableEq, Repr

/-- A chat message (server.js lines 323-329, timestamp stamped at append). -/
structure ChatMessage where
  id : String
  userId : String
  username : String
  color : String
  message : String
  timestamp : Nat
deriving DecidableEq, Repr

/-- The `Room` aggregate (server.js lines 41-59). -/
structure Room where
  id : String
  code : String
  users : List (String × User)
  cursors : List (String × CursorEntry)
  history : List HistoryEntry
  files : List (String × File)
  activeFile : String
  chat : List ChatMessage
  lastSaved : Nat
deriving DecidableEq, Repr

/-- The seeded `main.js` file (server.js lines 54-58). -/
def mainJsFile : File :=
  { name := "main.js"
    content := "// Welcome to the collaborative code editor!\n// Start typing to see real-time collaboration in action\n\nconsole.log(\x22Hello, World!\x22);"
    language := "javascript" }

/-- `new Room(id)` (server.js lines 42-59). -/
def Room.new (id : String) (now : Nat) : Room :=
  { id := id
    code := ""
    users := []
    cursors := []
    history := []
    files := mapSet [] "main.js" mainJsFile
    activeFile := "main.js"
    chat := []
    lastSaved := now }

/-- The fixed 8-entry color palette (server.js line 38). -/
def userColors : List String :=
  ["#FF6B6B", "#4ECDC4", "#45B7D1", "#96CEB4",
   "#FFEAA7", "#DDA0DD", "#98D8C8", "#F7DC6F"]

/-- `Room.addUser(socketId, username)` (server.js lines 61-73).
`username` is the payload string, with `""` standing for any falsy value
(the JS guard is `username || ...`).  Returns the created user and the
updated room. -/
def Room.addUser (r : Room) (socketId username : String) (now : Nat) :
    User × Room :=
  let colorIndex := r.users.length % userColors.length
  let user : User :=
    { id := socketId
      username := if username = "" then "User" ++ toString (r.users.length + 1) else username
      color := (userColors.get? colorIndex).getD ""
      joinedAt := now
      cursor := { line := 0, ch := 0 } }
  (user, { r with users := mapSet r.users socketId user })

/-- `Room.removeUser(socketId)` (server.js lines 75-78). -/
def Room.removeUser (r : Room) (socketId : String) : Room :=
  { r with users := mapDelete r.users socketId
           cursors := mapDelete r.cursors socketId }

/-- `Room.updateCode(content, operation)` (server.js lines 80-98): targets the
active file; if it is present, overwrites its content, appends a history
entry and truncates the history to `config.roomHistoryLimit`. -/
def Room.updateCode (cfg : Config) (r : Room) (content : String)
    (operation : StoredOp) (now : Nat) : Room :=
  match r.files.lookup r.activeFile with
  | none => r
  | some _ =>
    let files' := r.files.map
      (fun p => if p.1 = r.activeFile then (p.1, { p.2 with content := content }) else p)
    let entry : HistoryEntry :=
      { timestamp := now, operation := some operation
        content := content, file := r.activeFile }
    let h := r.history ++ [entry]
    let h' := if h.length > cfg.roomHistoryLimit then jsSliceLast cfg.roomHistoryLimit h else h
    { r with files := files', history := h' }

/-- `Room.updateCode(fileName, content)` of the alternate draft
(`src/unnamed/part_000` lines 64-81): targets the named file; a miss is a
no-op; the history cap there is the literal 1000 and the entry stores no
descriptor. -/
def Room.updateCodeNamed (r : Room) (fileName content : String) (now : Nat) :
    Room :=
  match r.files.lookup fileName with
  | none => r
  | some _ =>
    let files' := r.files.map
      (fun p => if p.1 = fileName then (p.1, { p.2 with content := content }) else p)
    let entry : HistoryEntry :=
      { timestamp := now, operation := none, content := content, file := fileName }
    let h := r.history ++ [entry]
    let h' := if h.length > 1000 then jsSliceLast 1000 h else h
    { r with files := files', history := h' }

/-- `Room.updateCursor(socketId, cursor)` (server.js lines 100-106). -/
def Room.updateCursor (r : Room) (socketId : String) (c : CursorPos)
    (now : Nat) : Room :=
  let entry : CursorEntry :=
    { line := c.line, ch := c.ch, userId := socketId, timestamp := now }
  { r with cursors := mapSet r.cursors socketId entry }

/-- `Room.addChatMessage(message)` (server.js lines 108-118). -/
def Room.addChatMessage (cfg : Config) (r : Room) (m : ChatMessage)
    (now : Nat) : Room :=
  let c := r.chat ++ [{ m with timestamp := now }]
  let c' := if c.length > cfg.chatMessageLimit then jsSliceLast cfg.chatMessageLimit c else c
  { r with chat := c' }

/-- `Room.switchFile(fileName)` (server.js lines 120-126). -/
def Room.switchFile (r : Room) (fileName : String) : Option File × Room :=
  match r.files.lookup fileName with
  | some f => (some f, { r with activeFile := fileName })
  | none => (none, r)

/-- `Room.createFile(fileName, content = '', language = 'javascript')`
(server.js lines 128-139). -/
def Room.createFile (r : Room) (fileName : String)
    (content : String := "") (language : String := "javascript") :
    Option File × Room :=
  if (r.files.lookup fileName).isSome then
    (none, r)
  else
    let file : File := { name := fileName, content := content, language := language }
    (some file, { r with files := mapSet r.files fileName file })

/-- `Room.deleteFile(fileName)` (server.js lines 141-150). -/
def Room.deleteFile (r : Room) (fileName : String) : Bool × Room :=
  if fileName ≠ "main.js" ∧ (r.files.lookup fileName).isSome then
    let r' := { r with files := mapDelete r.files fileName }
    let r'' := if r'.activeFile = fileName then { r' with activeFile := "main.js" } else r'
    (true, r'')
  else
    (false, r)

/-- One iteration of the loop body of `transformOperation`
(server.js lines 179-187), parameterized by the incoming operation's
timestamp (the JS loop compares against `op.timestamp`, which never
changes during the fold). -/
def transformStep (opTs : Nat) (t otherOp : EditOp) : EditOp :=
  if otherOp.timestamp < opTs then
    if otherOp.type = OpType.insert ∧ otherOp.position ≤ t.position then
      { t with position := t.position + (otherOp.text.length : Int) }
    else if otherOp.type = OpType.delete ∧ otherOp.position < t.position then
      { t with position := t.position - min (otherOp.length : Int) (t.position - otherOp.position) }
    else t
  else t

/-- `transformOperation(op, otherOps)` (server.js lines 174-190). -/
def transformOperation (op : EditOp) (otherOps : List EditOp) : EditOp :=
  otherOps.foldl (transformStep op.timestamp) op

/-- JS `x || d` on an optional numeric payload field:
both `undefined` and `0` are falsy, so both select the default. -/
def jsOrNat (x : Option Nat) (d : Nat) : Nat :=
  match x with
  | none => d
  | some v => if v = 0 then d else v

/-- The `get-replay` handler's filter (server.js lines 344-348):
`history.filter(op => op.timestamp >= (fromTimestamp || 0) &&
op.timestamp <= (toTimestamp || Date.now()))`. -/
def getReplay (history : List HistoryEntry)
    (fromTimestamp toTimestamp : Option Nat) (now : Nat) : List HistoryEntry :=
  history.filter (fun op =>
    decide (jsOrNat fromTimestamp 0 ≤ op.timestamp) &&
    decide (op.timestamp ≤ jsOrNat toTimestamp now))

/-- A `createFile`/`deleteFile` request, for reasoning about sequences of
file operations on a room. -/
inductive FileOp where
  | create (fileName content language : String)
  | delete (fileName : String)
deriving DecidableEq, Repr

def applyFileOp (r : Room) (op : FileOp) : Room :=
  match op with
  | .create f c l => (r.createFile f c l).2
  | .delete f => (r.deleteFile f).2

def applyFileOps (r : Room) (ops : List FileOp) : Room :=
  ops.foldl applyFileOp r

/-- An invocation of any of the Room mutators, for reasoning about
arbitrary sequences of Room operations. -/
inductive RoomOp where
  | addUser (socketId username : String) (now : Nat)
  | removeUser (socketId : String)
  | updateCode (content : String) (op : StoredOp) (now : Nat)
  | updateCodeNamed (fileName content : String) (now : Nat)
  | updateCursor (socketId : String) (c : CursorPos) (now : Nat)
  | addChatMessage (m : ChatMessage) (now : Nat)
  | switchFile (fileName : String)
  | createFile (fileName content language : String)
  | deleteFile (fileName : String)
deriving DecidableEq, Repr

def applyRoomOp (cfg : Config) (r : Room) (op : RoomOp) : Room :=
  match op with
  | .addUser sid name now => (r.addUser sid name now).2
  | .removeUser sid => r.removeUser sid
  | .updateCode content op now => r.updateCode cfg content op now
  | .updateCodeNamed f content now => r.updateCodeNamed f content now
  | .updateCursor sid c now => r.updateCursor sid c now
  | .addChatMessage m now => r.addChatMessage cfg m now
  | .switchFile f => (r.switchFile f).2
  | .createFile f c l => (r.createFile f c l).2
  | .deleteFile f => (r.deleteFile f).2

def applyRoomOps (cfg : Config) (r : Room) (ops : List RoomOp) : Room :=
  ops.foldl (applyRoomOp cfg) r

/-- An `updateCode` invocation, for reasoning about sequences of edits. -/
structure UpdateCall where
  content : String
  operation : StoredOp
  now : Nat
deriving DecidableEq, Repr

def applyUpdates (cfg : Config) (r : Room) (calls : List UpdateCall) : Room :=
  calls.foldl (fun r c => r.updateCode cfg c.content c.operation c.now) r

/-- The history entry appended by an `updateCode` call when the given file
was the active one. -/
def callEntry (file : String) (c : UpdateCall) : HistoryEntry :=
  { timestamp := c.now, operation := some c.operation
    content := c.content, file := file }

/-- A sample stored descriptor, for concrete evaluations. -/
def sampleOp : StoredOp :=
  { type := OpType.other, position := 0, timestamp := 0
    text := "", length := 0, userId := "u", username := "n" }

/-- Three sample `updateCode` calls, for concrete evaluations. -/
def sampleCalls : List UpdateCall :=
  [{ content := "a", operation := sampleOp, now := 1 },
   { content := "b", operation := sampleOp, now := 2 },
   { content := "c", operation := sampleOp, now := 3 }]

/- ### The session gateway (socket handlers, server.js lines 193-381) -/

/-- The per-connection closure variables `currentRoom`/`currentUser`
(server.js lines 196-197). -/
structure Session where
  currentRoom : Option String
  currentUser : Option User
deriving DecidableEq, Repr

/-- Global gateway state: the `rooms` registry (server.js line 37) and one
session per live connection. -/
structure GState where
  rooms : List (String × Room)
  sessions : List (String × Session)
deriving DecidableEq, Repr

/-- `getOrCreateRoom(roomId)` (server.js lines 167-172), returning the
updated registry; the room itself is the subsequent lookup. -/
def getOrCreateRoom (rooms : List (String × Room)) (roomId : String)
    (now : Nat) : List (String × Room) :=
  if (rooms.lookup roomId).isSome then rooms
  else mapSet rooms roomId (Room.new roomId now)

/-- A history entry viewed as an edit descriptor: the `code-change` handler
passes raw history entries to `transformOperation` (server.js lines 232-233),
whose `.type`/`.position`/`.text`/`.length` fields are `undefined` because
the entry nests its descriptor under `.operation`; `undefined` matches
neither `'insert'` nor `'delete'`. -/
def entryAsOp (e : HistoryEntry) : EditOp :=
  { type := OpType.other, position := 0, timestamp := e.timestamp
    text := "", length := 0 }

/-- Inbound session events handled by the gateway. -/
inductive GEvent where
  | connect (sid : String)
  | joinRoom (sid roomId username : String) (now : Nat)
  | codeChange (sid content : String) (op : EditOp) (now : Nat)
  | cursorChange (sid : String) (c : CursorPos) (now : Nat)
  | switchFileEv (sid fileName : String)
  | createFileEv (sid fileName language : String)
  | deleteFileEv (sid fileName : String)
  | chatMessageEv (sid message : String) (now : Nat)
  | getReplayEv (sid : String) (fromTs toTs : Option Nat) (now : Nat)
  | disconnect (sid : String)
deriving DecidableEq, Repr

def sessionOf (s : GState) (sid : String) : Session :=
  (s.sessions.lookup sid).getD { currentRoom := none, currentUser := none }

/-- The gateway's reaction to one inbound event (server.js lines 193-381).
Broadcasts have no effect on server state and are omitted.  Handlers that
read `currentUser.username` are only reached with `currentRoom` set, in
which case `currentUser` is set too (both are assigned together in
`join-room`); the never-reached mismatched case is a no-op here. -/
def stepG (cfg : Config) (s : GState) (e : GEvent) : GState :=
  match e with
  | .connect sid =>
      { s with sessions :=
          mapSet s.sessions sid { currentRoom := none, currentUser := none } }
  | .joinRoom sid roomId username now =>
      let rooms₁ := getOrCreateRoom s.rooms roomId now
      match rooms₁.lookup roomId with
      | none => { s with rooms := rooms₁ }
      | some room =>
        let res := room.addUser sid username now
        { rooms := mapSet rooms₁ roomId res.2
          sessions := mapSet s.sessions sid
            { currentRoom := some roomId, currentUser := some res.1 } }
  | .codeChange sid content op now =>
      let sess := sessionOf s sid
      match sess.currentRoom, sess.currentUser with
      | some rid, some user =>
        (match s.rooms.lookup rid with
         | none => s
         | some room =>
           let recentOps := (jsSliceLast 10 room.history).map entryAsOp
           let transformedOp := transformOperation op recentOps
           let stored : StoredOp :=
             { toEditOp := transformedOp, userId := sid, username := user.username }
           { s with rooms := mapSet s.rooms rid (room.updateCode cfg content stored now) })
      | _, _ => s
  | .cursorChange sid c now =>
      match (sessionOf s sid).currentRoom with
      | none => s
      | some rid =>
        match s.rooms.lookup rid with
        | none => s
        | some room =>
          { s with rooms := mapSet s.rooms rid (room.updateCursor sid c now) }
  | .switchFileEv sid fileName =>
      match (sessionOf s sid).currentRoom with
      | none => s
      | some rid =>
        match s.rooms.lookup rid with
        | none => s
        | some room =>
          { s with rooms := mapSet s.rooms rid (room.switchFile fileName).2 }
  | .createFileEv sid fileName language =>
      match (sessionOf s sid).currentRoom with
      | none => s
      | some rid =>
        match s.rooms.lookup rid with
        | none => s
        | some room =>
          { s with rooms := mapSet s.rooms rid (room.createFile fileName "" language).2 }
  | .deleteFileEv sid fileName =>
      match (sessionOf s sid).currentRoom with
      | none => s
      | some rid =>
        match s.rooms.lookup rid with
        | none => s
        | some room =>
          { s with rooms := mapSet s.rooms rid (room.deleteFile fileName).2 }
  | .chatMessageEv sid message now =>
      let sess := sessionOf s sid
      match sess.currentRoom, sess.currentUser with
      | some rid, some user =>
        (match s.rooms.lookup rid with
         | none => s
         | some room =>
           let msg : ChatMessage :=
             { id := toString now ++ sid, userId := sid
               username := user.username, color := user.color
               message := message.trim, timestamp := now }
           { s with rooms := mapSet s.rooms rid (room.addChatMessage cfg msg now) })
      | _, _ => s
  | .getReplayEv _ _ _ _ => s
  | .disconnect sid =>
      let sess := sessionOf s sid
      let s' :=
        match sess.currentRoom, sess.currentUser with
        | some rid, some _ =>
          (match s.rooms.lookup rid with
           | none => s
           | some room =>
             let room' := room.removeUser sid
             if room'.users.length = 0 then
               { s with rooms := mapDelete s.rooms rid }
             else
               { s with rooms := mapSet s.rooms rid room' })
        | _, _ => s
      { s' with sessions := mapDelete s'.sessions sid }

/-- The empty gateway state at process start. -/
def initG : GState := { rooms := [], sessions := [] }

/-- Every room present in the registry has a strictly positive user count. -/
def registryPositive (s : GState) : Prop :=
  ∀ (rid : String) (room : Room),
    s.rooms.lookup rid = some room → 0 < room.users.length

/-- Gateway states reachable from process start by handled events. -/
inductive Reachable (cfg : Config) : GState → Prop where
  | init : Reachable cfg initG
  | step {s : GState} (e : GEvent) : Reachable cfg s → Reachable cfg (stepG cfg s e)

/- ### Helper lemmas about the map model -/

theorem lookup_cons_eq {α : Type} (a j : String) (b : α) (m : List (String × α))
    (h : j = a) : ((a, b) :: m).lookup j = some b := by
  simp [List.lookup_cons, h]

theorem lookup_cons_ne {α : Type} (a j : String) (b : α) (m : List (String × α))
    (h : j ≠ a) : ((a, b) :: m).lookup j = m.lookup j := by
  simp [List.lookup_cons, beq_false_of_ne h]

theorem lookup_map_setpair {α : Type} (m : List (String × α)) (k j : String)
    (v : α) :
    (m.map (fun p => if p.1 = k then (k, v) else p)).lookup j
      = if j = k then (m.lookup k).map (fun _ => v) else m.lookup j := by
  induction m with
  | nil => simp
  | cons p m ih =>
    obtain ⟨a, b⟩ := p
    simp only [List.map_cons]
    by_cases hak : a = k
    · rw [if_pos hak]
      by_cases hjk : j = k
      · rw [lookup_cons_eq _ _ _ _ hjk, if_pos hjk,
          lookup_cons_eq a k b m hak.symm]
        rfl
      · have hja : j ≠ a := fun h => hjk (h.trans hak)
        rw [lookup_cons_ne _ _ _ _ hjk, ih, if_neg hjk, if_neg hjk,
          lookup_cons_ne a j b m hja]
    · rw [if_neg hak]
      by_cases hja : j = a
      · have hjk : j ≠ k := by rw [hja]; exact hak
        rw [lookup_cons_eq _ _ _ _ hja, if_neg hjk,
          lookup_cons_eq a j b m hja]
      · rw [lookup_cons_ne _ _ _ _ hja, ih, lookup_cons_ne a j b m hja]
        by_cases hjk : j = k
        · rw [if_pos hjk, if_pos hjk,
            lookup_cons_ne a k b m (fun h => hak h.symm)]
        · rw [if_neg hjk, if_neg hjk]

theorem lookup_map_update {α : Type} (m : List (String × α)) (k j : String)
    (g : α → α) :
    (m.map (fun p => if p.1 = k then (p.1, g p.2) else p)).lookup j
      = if j = k then (m.lookup k).map g else m.lookup j := by
  induction m with
  | nil => simp
  | cons p m ih =>
    obtain ⟨a, b⟩ := p
    simp only [List.map_cons]
    by_cases hak : a = k
    · rw [if_pos hak]
      by_cases hjk : j = k
      · have hja : j = a := hjk.trans hak.symm
        rw [lookup_cons_eq _ _ _ _ hja, if_pos hjk,
          lookup_cons_eq a k b m hak.symm]
        rfl
      · have hja : j ≠ a := fun h => hjk (h.trans hak)
        rw [lookup_cons_ne _ _ _ _ hja, ih, if_neg hjk, if_neg hjk,
          lookup_cons_ne a j b m hja]
    · rw [if_neg hak]
      by_cases hja : j = a
      · have hjk : j ≠ k := by rw [hja]; exact hak
        rw [lookup_cons_eq _ _ _ _ hja, if_neg hjk,
          lookup_cons_eq a j b m hja]
      · rw [lookup_cons_ne _ _ _ _ hja, ih, lookup_cons_ne a j b m hja]
        by_cases hjk : j = k
        · rw [if_pos hjk, if_pos hjk,
            lookup_cons_ne a k b m (fun h => hak h.symm)]
        · rw [if_neg hjk, if_neg hjk]

theorem lookup_mapSet {α : Type} (m : List (String × α)) (k j : String)
    (v : α) :
    (mapSet m k v).lookup j = if j = k then some v else m.lookup j := by
  unfold mapSet
  by_cases hk : (m.lookup k).isSome
  · rw [if_pos hk, lookup_map_setpair]
    by_cases hjk : j = k
    · obtain ⟨b, hb⟩ := Option.isSome_iff_exists.mp hk
      rw [if_pos hjk, if_pos hjk, hb]
      rfl
    · rw [if_neg hjk, if_neg hjk]
  · rw [if_neg hk, List.lookup_append]
    by_cases hjk : j = k
    · rw [if_pos hjk, hjk, Option.not_isSome_iff_eq_none.mp hk,
        lookup_cons_eq k k v [] rfl]
      rfl
    · rw [if_neg hjk, lookup_cons_ne k j v [] hjk, List.lookup_nil]
      exact Option.or_none

theorem lookup_mapDelete {α : Type} (m : List (String × α)) (k j : String) :
    (mapDelete m k).lookup j = if j = k then none else m.lookup j := by
  induction m with
  | nil => simp [mapDelete]
  | cons p m ih =>
    obtain ⟨a, b⟩ := p
    by_cases hak : a = k
    · rw [show mapDelete ((a, b) :: m) k = mapDelete m k by
        simp [mapDelete, List.filter_cons, hak], ih]
      by_cases hjk : j = k
      · rw [if_pos hjk, if_pos hjk]
      · rw [if_neg hjk, if_neg hjk,
          lookup_cons_ne a j b m (fun h => hjk (h.trans hak))]
    · rw [show mapDelete ((a, b) :: m) k = (a, b) :: mapDelete m k by
        simp [mapDelete, List.filter_cons, hak]]
      by_cases hja : j = a
      · have hjk : j ≠ k := by rw [hja]; exact hak
        rw [lookup_cons_eq _ _ _ _ hja, if_neg hjk,
          lookup_cons_eq a j b m hja]
      · rw [lookup_cons_ne _ _ _ _ hja, ih, lookup_cons_ne a j b m hja]

theorem mapSet_length_pos {α : Type} (m : List (String × α)) (k : String)
    (v : α) : 0 < (mapSet m k v).length := by
  cases m with
  | nil => simp [mapSet]
  | cons p m =>
    unfold mapSet
    split <;> simp

theorem length_mapSet {α : Type} (m : List (String × α)) (k : String) (v : α) :
    (mapSet m k v).length
      = if (m.lookup k).isSome then m.length else m.length + 1 := by
  unfold mapSet
  split <;> simp_all


/- ### C1: main.js is never absent -/

theorem hasMain_applyFileOp (r : Room) (op : FileOp)
    (h : (r.files.lookup "main.js").isSome) :
    ((applyFileOp r op).files.lookup "main.js").isSome := by
  cases op with
  | create f c l =>
    simp only [applyFileOp, Room.createFile]
    by_cases hf : (r.files.lookup f).isSome
    · rw [if_pos hf]
      exact h
    · rw [if_neg hf]
      simp only [lookup_mapSet]
      by_cases hm : ("main.js" : String) = f
      · rw [if_pos hm]
        rfl
      · rw [if_neg hm]
        exact h
  | delete f =>
    simp only [applyFileOp, Room.deleteFile]
    by_cases hc : f ≠ "main.js" ∧ (r.files.lookup f).isSome
    · rw [if_pos hc]
      have hfiles :
          ((if ({ r with files := mapDelete r.files f } : Room).activeFile = f then
              { ({ r with files := mapDelete r.files f } : Room) with
                  activeFile := "main.js" }
            else { r with files := mapDelete r.files f }) : Room).files
            = mapDelete r.files f := by
        split <;> rfl
      simp only [hfiles, lookup_mapDelete]
      rw [if_neg (fun hh => hc.1 hh.symm)]
      exact h
    · rw [if_neg hc]
      exact h

theorem applyFileOps_hasMain (ops : List FileOp) :
    ∀ r : Room, (r.files.lookup "main.js").isSome →
      ((applyFileOps r ops).files.lookup "main.js").isSome := by
  induction ops with
  | nil =>
    intro r h
    exact h
  | cons op ops ih =>
    intro r h
    exact ih _ (hasMain_applyFileOp r op h)

/-- C1: after construction, every sequence of `createFile`/`deleteFile`
operations leaves `"main.js"` present in the room's file map: the
constructor seeds it, `createFile` never removes anything, and
`deleteFile` refuses the name `"main.js"`. -/
theorem C1_mainjs_never_absent (id : String) (now : Nat) (ops : List FileOp) :
    ((applyFileOps (Room.new id now) ops).files.lookup "main.js").isSome := by
  apply applyFileOps_hasMain
  rfl

/- ### C2: the operational-transform position adjustment -/

/-- C2: `transformOperation` reconciles the incoming descriptor by folding
the adjustment over the window: a prior with a strictly earlier timestamp
that is an insert at or before the current position shifts it forward by the
inserted text's length; a prior delete strictly before the current position
shifts it backward by `min(prior.length, position - prior.position)`, hence
never below the prior's position; all other priors leave it unchanged.  An
insert at position 10 against an earlier insert at position 5 with text of
length 3 yields position 13. -/
theorem C2_transformOperation_reconciliation :
    (∀ (op : EditOp) (otherOps : List EditOp),
        transformOperation op otherOps
          = otherOps.foldl (transformStep op.timestamp) op)
    ∧ (∀ (opTs : Nat) (t other : EditOp),
        (other.timestamp < opTs → other.type = OpType.insert →
          other.position ≤ t.position →
          transformStep opTs t other
            = { t with position := t.position + (other.text.length : Int) })
        ∧ (other.timestamp < opTs → other.type = OpType.delete →
          other.position < t.position →
          transformStep opTs t other
            = { t with position :=
                  t.position - min (other.length : Int) (t.position - other.position) }
            ∧ other.position ≤ (transformStep opTs t other).position)
        ∧ (other.timestamp < opTs →
            ¬(other.type = OpType.insert ∧ other.position ≤ t.position) →
            ¬(other.type = OpType.delete ∧ other.position < t.position) →
            transformStep opTs t other = t)
        ∧ (¬ other.timestamp < opTs → transformStep opTs t other = t))
    ∧ (transformOperation
        { type := OpType.insert, position := 10, timestamp := 2, text := "", length := 0 }
        [{ type := OpType.insert, position := 5, timestamp := 1, text := "abc", length := 0 }]).position
        = 13 := by
  refine ⟨fun op otherOps => rfl, fun opTs t other => ⟨?_, ?_, ?_, ?_⟩, by decide⟩
  · intro hts hins hle
    unfold transformStep
    rw [if_pos hts, if_pos ⟨hins, hle⟩]
  · intro hts hdel hlt
    have hnotins : ¬(other.type = OpType.insert ∧ other.position ≤ t.position) := by
      rintro ⟨h1, -⟩
      rw [hdel] at h1
      exact absurd h1 (by decide)
    constructor
    · unfold transformStep
      rw [if_pos hts, if_neg hnotins, if_pos ⟨hdel, hlt⟩]
    · unfold transformStep
      rw [if_pos hts, if_neg hnotins, if_pos ⟨hdel, hlt⟩]
      simp only
      omega
  · intro hts hnotins hnotdel
    unfold transformStep
    rw [if_pos hts, if_neg hnotins, if_neg hnotdel]
  · intro hts
    unfold transformStep
    rw [if_neg hts]

theorem C2_transformOperation_reconciliation_witness :
    transformStep 2
        { type := OpType.insert, position := 10, timestamp := 2, text := "", length := 0 }
        { type := OpType.insert, position := 5, timestamp := 1, text := "abc", length := 0 }
      = { type := OpType.insert, position := 10 + (("abc".length : Nat) : Int),
          timestamp := 2, text := "", length := 0 }
    ∧ (5 : Int)
        ≤ (transformStep 2
            { type := OpType.insert, position := 10, timestamp := 2, text := "", length := 0 }
            { type := OpType.delete, position := 5, timestamp := 1, text := "", length := 3 }).position
    ∧ transformStep 2
        { type := OpType.insert, position := 10, timestamp := 2, text := "", length := 0 }
        { type := OpType.insert, position := 11, timestamp := 1, text := "abc", length := 0 }
      = { type := OpType.insert, position := 10, timestamp := 2, text := "", length := 0 } :=
  ⟨(C2_transformOperation_reconciliation.2.1 2
      { type := OpType.insert, position := 10, timestamp := 2, text := "", length := 0 }
      { type := OpType.insert, position := 5, timestamp := 1, text := "abc", length := 0 }).1
    (by decide) (by decide) (by decide),
   ((C2_transformOperation_reconciliation.2.1 2
      { type := OpType.insert, position := 10, timestamp := 2, text := "", length := 0 }
      { type := OpType.delete, position := 5, timestamp := 1, text := "", length := 3 }).2.1
    (by decide) (by decide) (by decide)).2,
   (C2_transformOperation_reconciliation.2.1 2
      { type := OpType.insert, position := 10, timestamp := 2, text := "", length := 0 }
      { type := OpType.insert, position := 11, timestamp := 1, text := "abc", length := 0 }).2.2.1
    (by decide) (by decide) (by decide)⟩

/- ### C9: addUser color and name assignment -/

/-- C9: `addUser` colors the new user with
`palette[currentUserCount mod paletteSize]` (taking the user count
immediately before insertion, over the fixed 8-entry palette) and names them
the requested name when non-empty, else `User<N>` with `N = count + 1`;
in an empty room Alice then Bob get `palette[0]` and `palette[1]`. -/
theorem C9_addUser_color_and_name (r : Room) (sid name : String) (now : Nat) :
    userColors.length = 8
    ∧ (r.addUser sid name now).1.color
        = (userColors.get? (r.users.length % userColors.length)).getD ""
    ∧ (r.addUser sid name now).1.username
        = (if name = "" then "User" ++ toString (r.users.length + 1) else name)
    ∧ ((Room.new "ABC123" 0).addUser "s1" "Alice" 1).1.username = "Alice"
    ∧ ((Room.new "ABC123" 0).addUser "s1" "Alice" 1).1.color
        = (userColors.get? 0).getD ""
    ∧ ((((Room.new "ABC123" 0).addUser "s1" "Alice" 1).2).addUser "s2" "Bob" 2).1.username
        = "Bob"
    ∧ ((((Room.new "ABC123" 0).addUser "s1" "Alice" 1).2).addUser "s2" "Bob" 2).1.color
        = (userColors.get? 1).getD "" := by
  refine ⟨rfl, rfl, rfl, by decide, by decide, by decide, by decide⟩

/- ### C4: the replay filter -/

/-- C4 counterexample: with history `[entry at t=7]`, `fromTimestamp = 5`,
`toTimestamp = 0` and server clock 10, we have `from > to` yet `getReplay`
is nonempty (and its entry's timestamp exceeds `to`): the handler evaluates
`toTimestamp || Date.now()`, so an explicit `0` upper bound is replaced by
the current time. -/
theorem C4_getReplay_counterexample :
    (5 : Nat) > 0
    ∧ getReplay [{ timestamp := 7, operation := none, content := "", file := "main.js" }]
        (some 5) (some 0) 10
      = [{ timestamp := 7, operation := none, content := "", file := "main.js" }]
    ∧ getReplay [{ timestamp := 7, operation := none, content := "", file := "main.js" }]
        (some 5) (some 0) 10 ≠ [] := by
  refine ⟨by decide, by decide, by decide⟩

/-- C4 (amended): after resolving the bounds the way the handler does —
`from' = fromTimestamp || 0`, `to' = toTimestamp || now`, so an absent or
zero bound falls back to the default — `getReplay` returns exactly the
order-preserving subsequence of history entries with
`from' ≤ timestamp ≤ to'`, and is empty whenever `from' > to'`. -/
theorem C4_getReplay_amended (h : List HistoryEntry)
    (fromTs toTs : Option Nat) (now : Nat) :
    (getReplay h fromTs toTs now).Sublist h
    ∧ (∀ e ∈ getReplay h fromTs toTs now,
        jsOrNat fromTs 0 ≤ e.timestamp ∧ e.timestamp ≤ jsOrNat toTs now)
    ∧ (∀ e ∈ h, jsOrNat fromTs 0 ≤ e.timestamp → e.timestamp ≤ jsOrNat toTs now →
        e ∈ getReplay h fromTs toTs now)
    ∧ (jsOrNat toTs now < jsOrNat fromTs 0 → getReplay h fromTs toTs now = []) := by
  refine ⟨List.filter_sublist h, ?_, ?_, ?_⟩
  · intro e he
    have := (List.mem_filter.mp he).2
    simp only [Bool.and_eq_true, decide_eq_true_eq] at this
    exact this
  · intro e he h1 h2
    refine List.mem_filter.mpr ⟨he, ?_⟩
    simp only [Bool.and_eq_true, decide_eq_true_eq]
    exact ⟨h1, h2⟩
  · intro hlt
    refine List.filter_eq_nil_iff.mpr ?_
    intro e _
    simp only [Bool.and_eq_true, decide_eq_true_eq, not_and]
    intro h1 h2
    omega

theorem C4_getReplay_amended_witness :
    (getReplay
        [{ timestamp := 7, operation := none, content := "", file := "main.js" }]
        (some 9) (some 3) 4).Sublist
      [{ timestamp := 7, operation := none, content := "", file := "main.js" }]
    ∧ getReplay
        [{ timestamp := 7, operation := none, content := "", file := "main.js" }]
        (some 9) (some 3) 4 = [] :=
  ⟨(C4_getReplay_amended
      [{ timestamp := 7, operation := none, content := "", file := "main.js" }]
      (some 9) (some 3) 4).1,
   (C4_getReplay_amended
      [{ timestamp := 7, operation := none, content := "", file := "main.js" }]
      (some 9) (some 3) 4).2.2.2 (by decide)⟩

/- ### C6: deleteFile -/

/-- C6: `deleteFile` returns `false` and leaves the room unchanged when the
name is `"main.js"` or absent; otherwise it returns `true`, removes exactly
that file (and nothing else), resets `activeFile` to `"main.js"` exactly
when the deleted file was active, and touches no other field; in particular
deleting the currently active file (whenever it exists) always leaves
`activeFile = "main.js"`. -/
theorem C6_deleteFile_spec (r : Room) (f : String) :
    (f = "main.js" ∨ (r.files.lookup f).isNone → r.deleteFile f = (false, r))
    ∧ (f ≠ "main.js" → (r.files.lookup f).isSome →
        (r.deleteFile f).1 = true
        ∧ ((r.deleteFile f).2.files.lookup f).isNone
        ∧ (∀ g, g ≠ f → (r.deleteFile f).2.files.lookup g = r.files.lookup g)
        ∧ (r.deleteFile f).2.activeFile
            = (if r.activeFile = f then "main.js" else r.activeFile)
        ∧ (r.deleteFile f).2.users = r.users
        ∧ (r.deleteFile f).2.cursors = r.cursors
        ∧ (r.deleteFile f).2.history = r.history
        ∧ (r.deleteFile f).2.chat = r.chat
        ∧ (r.deleteFile f).2.id = r.id
        ∧ (r.deleteFile f).2.code = r.code
        ∧ (r.deleteFile f).2.lastSaved = r.lastSaved)
    ∧ ((r.files.lookup r.activeFile).isSome →
        (r.deleteFile r.activeFile).2.activeFile = "main.js") := by
  refine ⟨?_, ?_, ?_⟩
  · intro hfail
    unfold Room.deleteFile
    rw [if_neg]
    rintro ⟨hne, hsome⟩
    rcases hfail with hm | habs
    · exact hne hm
    · rw [Option.isNone_iff_eq_none.mp habs] at hsome
      exact absurd hsome (by decide)
  · intro hne hsome
    unfold Room.deleteFile
    rw [if_pos ⟨hne, hsome⟩]
    by_cases ha : r.activeFile = f
    · simp only [ha, if_true]
      refine ⟨trivial, ?_, ?_, trivial, trivial, trivial, trivial, trivial,
        trivial, trivial, trivial⟩
      · rw [lookup_mapDelete, if_pos rfl]
        rfl
      · intro g hg
        rw [lookup_mapDelete, if_neg hg]
    · simp only [ha, if_false]
      refine ⟨trivial, ?_, ?_, trivial, trivial, trivial, trivial, trivial,
        trivial, trivial, trivial⟩
      · rw [lookup_mapDelete, if_pos rfl]
        rfl
      · intro g hg
        rw [lookup_mapDelete, if_neg hg]
  · intro hsome
    by_cases hm : r.activeFile = "main.js"
    · unfold Room.deleteFile
      rw [if_neg]
      · exact hm
      · rintro ⟨hne, -⟩
        exact hne hm
    · unfold Room.deleteFile
      rw [if_pos ⟨hm, hsome⟩]
      simp

theorem C6_deleteFile_spec_witness :
    (Room.new "w" 0).deleteFile "main.js" = (false, Room.new "w" 0)
    ∧ (((Room.new "w" 0).createFile "a.js" "" "javascript").2.deleteFile "a.js").1 = true
    ∧ ((Room.new "w" 0).deleteFile "main.js").2.activeFile = "main.js" :=
  ⟨(C6_deleteFile_spec (Room.new "w" 0) "main.js").1 (Or.inl rfl),
   ((C6_deleteFile_spec ((Room.new "w" 0).createFile "a.js" "" "javascript").2
      "a.js").2.1 (by decide) (by decide)).1,
   (C6_deleteFile_spec (Room.new "w" 0) "main.js").2.2 (by decide)⟩

/- ### C8: createFile -/

/-- C8: `createFile` on a name already present returns the already-exists
failure (`null`) and changes nothing; on a fresh name it succeeds and
appends exactly one file with the given content and language; two identical
`createFile("utils.js", "", "javascript")` calls fail on the second and
leave exactly one `utils.js` in the file set. -/
theorem C8_createFile_spec (r : Room) (f c l : String) :
    ((r.files.lookup f).isSome → r.createFile f c l = (none, r))
    ∧ (¬(r.files.lookup f).isSome →
        r.createFile f c l
          = (some { name := f, content := c, language := l },
             { r with files :=
                 r.files ++ [(f, { name := f, content := c, language := l })] }))
    ∧ ((Room.new "x" 0).createFile "utils.js" "" "javascript").1.isSome
    ∧ (((Room.new "x" 0).createFile "utils.js" "" "javascript").2.createFile
          "utils.js" "" "javascript").1 = none
    ∧ ((Room.new "x" 0).createFile "utils.js" "" "javascript").2.createFile
          "utils.js" "" "javascript"
        = (none, ((Room.new "x" 0).createFile "utils.js" "" "javascript").2)
    ∧ (((Room.new "x" 0).createFile "utils.js" "" "javascript").2.files.filter
          (fun p => p.1 = "utils.js")).length = 1 := by
  refine ⟨?_, ?_, by decide, by decide, by decide, by decide⟩
  · intro h
    unfold Room.createFile
    rw [if_pos h]
  · intro h
    simp [Room.createFile, mapSet, h]

theorem C8_createFile_spec_witness :
    (Room.new "y" 0).createFile "main.js" "" "javascript" = (none, Room.new "y" 0)
    ∧ (Room.new "y" 0).createFile "b.js" "hi" "javascript"
        = (some { name := "b.js", content := "hi", language := "javascript" },
           { (Room.new "y" 0) with
               files := (Room.new "y" 0).files
                 ++ [("b.js", { name := "b.js", content := "hi", language := "javascript" })] }) :=
  ⟨(C8_createFile_spec (Room.new "y" 0) "main.js" "" "javascript").1 (by decide),
   (C8_createFile_spec (Room.new "y" 0) "b.js" "hi" "javascript").2.1 (by decide)⟩

/- ### C7: updateCode on a missing file is a silent no-op -/

/-- C7: `updateCode` (the named-file variant of `part_000`) with a target
file name absent from the file map is a complete no-op — nothing changes
and no error is signalled; when the target exists its content is replaced
and exactly one history entry is appended (the oldest entry is evicted only
past the cap), with every other room field untouched. -/
theorem C7_updateCode_silent_drop (r : Room) (f content : String) (now : Nat) :
    ((r.files.lookup f).isNone → r.updateCodeNamed f content now = r)
    ∧ ((r.files.lookup f).isSome →
        (r.updateCodeNamed f content now).files.lookup f
            = (r.files.lookup f).map (fun file => { file with content := content })
        ∧ (∀ g, g ≠ f →
            (r.updateCodeNamed f content now).files.lookup g = r.files.lookup g)
        ∧ (r.history.length < 1000 →
            (r.updateCodeNamed f content now).history
              = r.history
                  ++ [{ timestamp := now, operation := none
                        content := content, file := f }])
        ∧ (r.updateCodeNamed f content now).users = r.users
        ∧ (r.updateCodeNamed f content now).cursors = r.cursors
        ∧ (r.updateCodeNamed f content now).chat = r.chat
        ∧ (r.updateCodeNamed f content now).activeFile = r.activeFile
        ∧ (r.updateCodeNamed f content now).id = r.id
        ∧ (r.updateCodeNamed f content now).code = r.code
        ∧ (r.updateCodeNamed f content now).lastSaved = r.lastSaved) := by
  constructor
  · intro h
    simp only [Room.updateCodeNamed, Option.isNone_iff_eq_none.mp h]
  · intro h
    obtain ⟨file, hfile⟩ := Option.isSome_iff_exists.mp h
    simp only [Room.updateCodeNamed, hfile]
    refine ⟨?_, ?_, ?_, trivial, trivial, trivial, trivial, trivial, trivial,
      trivial⟩
    · rw [lookup_map_update r.files f f (fun x => { x with content := content }),
        if_pos rfl, hfile]
    · intro g hg
      rw [lookup_map_update r.files f g (fun x => { x with content := content }),
        if_neg hg]
    · intro hlen
      rw [if_neg]
      simp only [List.length_append, List.length_cons, List.length_nil]
      omega

theorem C7_updateCode_silent_drop_witness :
    (Room.new "z" 0).updateCodeNamed "ghost.js" "x = 1" 5 = Room.new "z" 0
    ∧ ((Room.new "z" 0).updateCodeNamed "main.js" "x = 2" 6).history
        = [{ timestamp := 6, operation := none, content := "x = 2", file := "main.js" }] :=
  ⟨(C7_updateCode_silent_drop (Room.new "z" 0) "ghost.js" "x = 1" 5).1 (by decide),
   ((C7_updateCode_silent_drop (Room.new "z" 0) "main.js" "x = 2" 6).2
      (by decide)).2.2.1 (by decide)⟩


/- ### C3: history cap and eviction order -/

theorem updateCode_activeFile (cfg : Config) (r : Room) (content : String)
    (op : StoredOp) (now : Nat) :
    (r.updateCode cfg content op now).activeFile = r.activeFile := by
  unfold Room.updateCode
  split <;> rfl

theorem updateCode_history_of_active (cfg : Config) (r : Room)
    (content : String) (op : StoredOp) (now : Nat)
    (h : (r.files.lookup r.activeFile).isSome) :
    (r.updateCode cfg content op now).history
      = (if (r.history
              ++ [({ timestamp := now, operation := some op
                     content := content, file := r.activeFile } : HistoryEntry)]).length
            > cfg.roomHistoryLimit
         then jsSliceLast cfg.roomHistoryLimit
            (r.history
              ++ [{ timestamp := now, operation := some op
                    content := content, file := r.activeFile }])
         else r.history
              ++ [{ timestamp := now, operation := some op
                    content := content, file := r.activeFile }]) := by
  obtain ⟨file, hfile⟩ := Option.isSome_iff_exists.mp h
  simp only [Room.updateCode, hfile]

theorem updateCode_active_present (cfg : Config) (r : Room) (content : String)
    (op : StoredOp) (now : Nat)
    (h : (r.files.lookup r.activeFile).isSome) :
    ((r.updateCode cfg content op now).files.lookup
        (r.updateCode cfg content op now).activeFile).isSome := by
  rw [updateCode_activeFile]
  obtain ⟨file, hfile⟩ := Option.isSome_iff_exists.mp h
  simp only [Room.updateCode, hfile]
  rw [lookup_map_update r.files r.activeFile r.activeFile
      (fun x => { x with content := content }), if_pos rfl, hfile]
  rfl

theorem trunc_eq_drop {α : Type} (cap : Nat) (hcap : 0 < cap) (l : List α) :
    (if l.length > cap then jsSliceLast cap l else l)
      = l.drop (l.length - cap) := by
  by_cases hl : l.length > cap
  · rw [if_pos hl]
    unfold jsSliceLast
    rw [if_neg (Nat.pos_iff_ne_zero.mp hcap)]
  · rw [if_neg hl]
    have h0 : l.length - cap = 0 := by omega
    rw [h0, List.drop_zero]

theorem drop_last_append_single {α : Type} (cap : Nat) (l : List α) (e : α) :
    (l.drop (l.length - cap) ++ [e]).drop
        ((l.drop (l.length - cap) ++ [e]).length - cap)
      = (l ++ [e]).drop ((l ++ [e]).length - cap) := by
  rcases le_or_lt l.length cap with hle | hlt
  · rw [Nat.sub_eq_zero_of_le hle, List.drop_zero]
  · rcases Nat.eq_zero_or_pos cap with hc0 | hcpos
    · subst hc0
      simp
    · have hdlen : (l.drop (l.length - cap)).length = cap := by
        rw [List.length_drop]
        omega
      have hidx : (l.drop (l.length - cap) ++ [e]).length - cap = 1 := by
        rw [List.length_append, hdlen]
        simp only [List.length_cons, List.length_nil]
        omega
      have hidx2 : (l ++ [e]).length - cap = l.length + 1 - cap := by
        rw [List.length_append]
        simp only [List.length_cons, List.length_nil]
      rw [hidx, hidx2,
        List.drop_append_of_le_length (by rw [hdlen]; exact hcpos),
        List.drop_append_of_le_length (by omega),
        List.drop_drop]
      have hix : l.length - cap + 1 = l.length + 1 - cap := by omega
      rw [hix]

theorem applyUpdates_activeFile_present (cfg : Config) (calls : List UpdateCall) :
    ∀ r : Room, (r.files.lookup r.activeFile).isSome →
      (applyUpdates cfg r calls).activeFile = r.activeFile
      ∧ ((applyUpdates cfg r calls).files.lookup
          (applyUpdates cfg r calls).activeFile).isSome := by
  induction calls with
  | nil =>
    intro r h
    exact ⟨rfl, h⟩
  | cons c cs ih =>
    intro r h
    have hstep : applyUpdates cfg r (c :: cs)
        = applyUpdates cfg (r.updateCode cfg c.content c.operation c.now) cs := rfl
    rw [hstep]
    have h'' : ((r.updateCode cfg c.content c.operation c.now).files.lookup
        (r.updateCode cfg c.content c.operation c.now).activeFile).isSome :=
      updateCode_active_present cfg r c.content c.operation c.now h
    obtain ⟨ha, hp⟩ := ih _ h''
    refine ⟨?_, hp⟩
    rw [ha, updateCode_activeFile]

theorem applyUpdates_history (cfg : Config) (hcap : 0 < cfg.roomHistoryLimit)
    (calls : List UpdateCall) (r : Room)
    (hact : (r.files.lookup r.activeFile).isSome)
    (hlen : r.history.length ≤ cfg.roomHistoryLimit) :
    (applyUpdates cfg r calls).history
      = (r.history ++ calls.map (callEntry r.activeFile)).drop
          ((r.history ++ calls.map (callEntry r.activeFile)).length
            - cfg.roomHistoryLimit) := by
  induction calls using List.reverseRecOn with
  | nil =>
    simp only [applyUpdates, List.foldl_nil, List.map_nil, List.append_nil]
    rw [Nat.sub_eq_zero_of_le hlen, List.drop_zero]
  | append_singleton cs c ih =>
    have hstep : applyUpdates cfg r (cs ++ [c])
        = (applyUpdates cfg r cs).updateCode cfg c.content c.operation c.now := by
      simp [applyUpdates, List.foldl_append]
    obtain ⟨hafile, hpres⟩ := applyUpdates_activeFile_present cfg cs r hact
    rw [hstep, updateCode_history_of_active cfg _ c.content c.operation c.now hpres,
      trunc_eq_drop cfg.roomHistoryLimit hcap, ih, hafile,
      List.map_append, List.map_cons, List.map_nil, ← List.append_assoc]
    have hdls := drop_last_append_single cfg.roomHistoryLimit
      (r.history ++ cs.map (callEntry r.activeFile)) (callEntry r.activeFile c)
    simp only [callEntry] at hdls ⊢
    exact hdls

/-- C3: starting from a fresh room, the history never exceeds the configured
cap after any sequence of `updateCode` calls, and the retained entries are
exactly the most recently appended cap-many entries in arrival order
(`drop (total - cap)` of the full append sequence); 1005 calls against a
cap of 1000 retain exactly the last 1000 (the oldest 5 evicted); and a
single `updateCode` step preserves `length ≤ cap` from any state. -/
theorem C3_history_cap (cfg : Config) (id : String) (now0 : Nat)
    (calls : List UpdateCall) (hcap : 0 < cfg.roomHistoryLimit) :
    (applyUpdates cfg (Room.new id now0) calls).history
        = (calls.map (callEntry "main.js")).drop
            (calls.length - cfg.roomHistoryLimit)
    ∧ (applyUpdates cfg (Room.new id now0) calls).history.length
        ≤ cfg.roomHistoryLimit
    ∧ (calls.length = 1005 → cfg.roomHistoryLimit = 1000 →
        (applyUpdates cfg (Room.new id now0) calls).history
          = (calls.map (callEntry "main.js")).drop 5)
    ∧ (∀ (r : Room) (c : UpdateCall),
        r.history.length ≤ cfg.roomHistoryLimit →
        (r.updateCode cfg c.content c.operation c.now).history.length
          ≤ cfg.roomHistoryLimit) := by
  have hbase : ((Room.new id now0).files.lookup (Room.new id now0).activeFile).isSome := by
    rfl
  have hmain : (applyUpdates cfg (Room.new id now0) calls).history
      = (calls.map (callEntry "main.js")).drop
          ((calls.map (callEntry "main.js")).length - cfg.roomHistoryLimit) := by
    have hh := applyUpdates_history cfg hcap calls (Room.new id now0) hbase
      (by simp [Room.new])
    simpa [Room.new] using hh
  refine ⟨?_, ?_, ?_, ?_⟩
  · rw [hmain, List.length_map]
  · rw [hmain, List.length_drop]
    omega
  · intro h1005 hcap1000
    rw [hmain, List.length_map, h1005, hcap1000]
  · intro r c hr
    by_cases hp : (r.files.lookup r.activeFile).isSome
    · rw [updateCode_history_of_active cfg r c.content c.operation c.now hp,
        trunc_eq_drop cfg.roomHistoryLimit hcap, List.length_drop]
      omega
    · unfold Room.updateCode
      rw [Option.not_isSome_iff_eq_none.mp hp]
      exact hr

theorem C3_history_cap_witness :
    (applyUpdates { roomHistoryLimit := 2, chatMessageLimit := 100 }
        (Room.new "r" 0) sampleCalls).history
      = (sampleCalls.map (callEntry "main.js")).drop 1 :=
  (C3_history_cap { roomHistoryLimit := 2, chatMessageLimit := 100 } "r" 0
    sampleCalls (by decide)).1

/- ### C10: cursor entries are keyed by their own userId -/

theorem updateCode_cursors (cfg : Config) (r : Room) (content : String)
    (op : StoredOp) (now : Nat) :
    (r.updateCode cfg content op now).cursors = r.cursors := by
  unfold Room.updateCode
  split <;> rfl

theorem updateCodeNamed_cursors (r : Room) (f content : String) (now : Nat) :
    (r.updateCodeNamed f content now).cursors = r.cursors := by
  unfold Room.updateCodeNamed
  split <;> rfl

theorem switchFile_cursors (r : Room) (f : String) :
    (r.switchFile f).2.cursors = r.cursors := by
  unfold Room.switchFile
  split <;> rfl

theorem createFile_cursors (r : Room) (f c l : String) :
    (r.createFile f c l).2.cursors = r.cursors := by
  unfold Room.createFile
  split <;> rfl

theorem deleteFile_cursors (r : Room) (f : String) :
    (r.deleteFile f).2.cursors = r.cursors := by
  unfold Room.deleteFile
  split
  · dsimp only
    split <;> rfl
  · rfl

theorem cursors_wellkeyed_step (cfg : Config) (r : Room) (op : RoomOp)
    (h : ∀ sid e, r.cursors.lookup sid = some e → e.userId = sid) :
    ∀ sid e, (applyRoomOp cfg r op).cursors.lookup sid = some e →
      e.userId = sid := by
  intro sid e he
  cases op with
  | addUser sid' name now =>
    exact h sid e he
  | removeUser sid' =>
    simp only [applyRoomOp, Room.removeUser] at he
    rw [lookup_mapDelete] at he
    by_cases hs : sid = sid'
    · rw [if_pos hs] at he
      exact Option.noConfusion he
    · rw [if_neg hs] at he
      exact h sid e he
  | updateCode content op' now =>
    simp only [applyRoomOp] at he
    rw [updateCode_cursors] at he
    exact h sid e he
  | updateCodeNamed f content now =>
    simp only [applyRoomOp] at he
    rw [updateCodeNamed_cursors] at he
    exact h sid e he
  | updateCursor sid' c now =>
    simp only [applyRoomOp, Room.updateCursor] at he
    rw [lookup_mapSet] at he
    by_cases hs : sid = sid'
    · rw [if_pos hs] at he
      injection he with heq
      rw [← heq, hs]
    · rw [if_neg hs] at he
      exact h sid e he
  | addChatMessage m now =>
    exact h sid e he
  | switchFile f =>
    simp only [applyRoomOp] at he
    rw [switchFile_cursors] at he
    exact h sid e he
  | createFile f c l =>
    simp only [applyRoomOp] at he
    rw [createFile_cursors] at he
    exact h sid e he
  | deleteFile f =>
    simp only [applyRoomOp] at he
    rw [deleteFile_cursors] at he
    exact h sid e he

theorem cursors_wellkeyed_applyRoomOps (cfg : Config) (ops : List RoomOp) :
    ∀ r : Room, (∀ sid e, r.cursors.lookup sid = some e → e.userId = sid) →
      ∀ sid e, (applyRoomOps cfg r ops).cursors.lookup sid = some e →
        e.userId = sid := by
  induction ops with
  | nil =>
    intro r h
    exact h
  | cons op ops ih =>
    intro r h
    exact ih _ (cursors_wellkeyed_step cfg r op h)

/-- C10: in every room reachable from construction by any sequence of Room
operations, each stored cursor entry's `userId` equals the connection-id key
it is stored under; `updateCursor` is a full upsert that overwrites the
entry for its key with `userId` set to that key and the server-assigned
timestamp, and `removeUser` deletes the entry. -/
theorem C10_cursors_wellkeyed :
    (∀ (cfg : Config) (id : String) (now : Nat) (ops : List RoomOp)
        (sid : String) (e : CursorEntry),
        (applyRoomOps cfg (Room.new id now) ops).cursors.lookup sid = some e →
        e.userId = sid)
    ∧ (∀ (r : Room) (sid : String) (c : CursorPos) (now : Nat),
        (r.updateCursor sid c now).cursors.lookup sid
          = some { line := c.line, ch := c.ch, userId := sid, timestamp := now })
    ∧ (∀ (r : Room) (sid : String),
        (r.removeUser sid).cursors.lookup sid = none) := by
  refine ⟨?_, ?_, ?_⟩
  · intro cfg id now ops sid e
    exact cursors_wellkeyed_applyRoomOps cfg ops (Room.new id now)
      (fun sid e he => Option.noConfusion he) sid e
  · intro r sid c now
    simp only [Room.updateCursor]
    rw [lookup_mapSet, if_pos rfl]
  · intro r sid
    simp only [Room.removeUser]
    rw [lookup_mapDelete, if_pos rfl]

theorem C10_cursors_wellkeyed_witness :
    ({ line := 1, ch := 2, userId := "a", timestamp := 5 } : CursorEntry).userId = "a"
    ∧ ((Room.new "q" 0).updateCursor "a" { line := 1, ch := 2 } 5).cursors.lookup "a"
        = some { line := 1, ch := 2, userId := "a", timestamp := 5 }
    ∧ ((Room.new "q" 0).removeUser "a").cursors.lookup "a" = none :=
  ⟨C10_cursors_wellkeyed.1 { roomHistoryLimit := 1000, chatMessageLimit := 100 }
      "q" 0 [RoomOp.updateCursor "a" { line := 1, ch := 2 } 5] "a"
      { line := 1, ch := 2, userId := "a", timestamp := 5 } (by decide),
   C10_cursors_wellkeyed.2.1 (Room.new "q" 0) "a" { line := 1, ch := 2 } 5,
   C10_cursors_wellkeyed.2.2 (Room.new "q" 0) "a"⟩

/- ### C5: registry membership tracks positive user count -/

theorem updateCode_users (cfg : Config) (r : Room) (content : String)
    (op : StoredOp) (now : Nat) :
    (r.updateCode cfg content op now).users = r.users := by
  unfold Room.updateCode
  split <;> rfl

theorem switchFile_users (r : Room) (f : String) :
    (r.switchFile f).2.users = r.users := by
  unfold Room.switchFile
  split <;> rfl

theorem createFile_users (r : Room) (f c l : String) :
    (r.createFile f c l).2.users = r.users := by
  unfold Room.createFile
  split <;> rfl

theorem deleteFile_users (r : Room) (f : String) :
    (r.deleteFile f).2.users = r.users := by
  unfold Room.deleteFile
  split
  · dsimp only
    split <;> rfl
  · rfl

theorem addUser_users_pos (r : Room) (sid name : String) (now : Nat) :
    0 < ((r.addUser sid name now).2).users.length :=
  mapSet_length_pos r.users sid _

theorem updateCursor_users (r : Room) (sid : String) (c : CursorPos)
    (now : Nat) : (r.updateCursor sid c now).users = r.users := rfl

theorem addChatMessage_users (cfg : Config) (r : Room) (m : ChatMessage)
    (now : Nat) : (r.addChatMessage cfg m now).users = r.users := rfl

theorem getOrCreateRoom_lookup_ne (rooms : List (String × Room))
    (roomId rid : String) (now : Nat) (hne : rid ≠ roomId) :
    (getOrCreateRoom rooms roomId now).lookup rid = rooms.lookup rid := by
  unfold getOrCreateRoom
  split
  · rfl
  · rw [lookup_mapSet, if_neg hne]

theorem stepG_registryPositive (cfg : Config) (s : GState) (e : GEvent)
    (h : registryPositive s) : registryPositive (stepG cfg s e) := by
  cases e with
  | connect sid =>
    exact h
  | joinRoom sid roomId username now =>
    intro rid room hr
    simp only [stepG] at hr
    split at hr
    · by_cases hrid : rid = roomId
      · subst hrid
        dsimp only at hr
        have hl : (getOrCreateRoom s.rooms rid now).lookup rid = none := by
          assumption
        rw [hl] at hr
        exact Option.noConfusion hr
      · dsimp only at hr
        rw [getOrCreateRoom_lookup_ne s.rooms roomId rid now hrid] at hr
        exact h _ _ hr
    · dsimp only at hr
      rw [lookup_mapSet] at hr
      split at hr
      · injection hr with heq
        rw [← heq]
        exact addUser_users_pos _ sid username now
      · rename_i hrid
        rw [getOrCreateRoom_lookup_ne s.rooms roomId rid now hrid] at hr
        exact h _ _ hr
  | codeChange sid content op now =>
    intro rid room hr
    simp only [stepG] at hr
    split at hr
    · split at hr
      · exact h _ _ hr
      · dsimp only at hr
        rw [lookup_mapSet] at hr
        split at hr
        · injection hr with heq
          rw [← heq, updateCode_users]
          exact h _ _ (by assumption)
        · exact h _ _ hr
    · exact h _ _ hr
  | cursorChange sid c now =>
    intro rid room hr
    simp only [stepG] at hr
    split at hr
    · exact h _ _ hr
    · split at hr
      · exact h _ _ hr
      · dsimp only at hr
        rw [lookup_mapSet] at hr
        split at hr
        · injection hr with heq
          rw [← heq, updateCursor_users]
          exact h _ _ (by assumption)
        · exact h _ _ hr
  | switchFileEv sid fileName =>
    intro rid room hr
    simp only [stepG] at hr
    split at hr
    · exact h _ _ hr
    · split at hr
      · exact h _ _ hr
      · dsimp only at hr
        rw [lookup_mapSet] at hr
        split at hr
        · injection hr with heq
          rw [← heq, switchFile_users]
          exact h _ _ (by assumption)
        · exact h _ _ hr
  | createFileEv sid fileName language =>
    intro rid room hr
    simp only [stepG] at hr
    split at hr
    · exact h _ _ hr
    · split at hr
      · exact h _ _ hr
      · dsimp only at hr
        rw [lookup_mapSet] at hr
        split at hr
        · injection hr with heq
          rw [← heq, createFile_users]
          exact h _ _ (by assumption)
        · exact h _ _ hr
  | deleteFileEv sid fileName =>
    intro rid room hr
    simp only [stepG] at hr
    split at hr
    · exact h _ _ hr
    · split at hr
      · exact h _ _ hr
      · dsimp only at hr
        rw [lookup_mapSet] at hr
        split at hr
        · injection hr with heq
          rw [← heq, deleteFile_users]
          exact h _ _ (by assumption)
        · exact h _ _ hr
  | chatMessageEv sid message now =>
    intro rid room hr
    simp only [stepG] at hr
    split at hr
    · split at hr
      · exact h _ _ hr
      · dsimp only at hr
        rw [lookup_mapSet] at hr
        split at hr
        · injection hr with heq
          rw [← heq, addChatMessage_users]
          exact h _ _ (by assumption)
        · exact h _ _ hr
    · exact h _ _ hr
  | getReplayEv sid fromTs toTs now =>
    exact h
  | disconnect sid =>
    intro rid room hr
    simp only [stepG] at hr
    split at hr
    · split at hr
      · exact h _ _ hr
      · split at hr
        · dsimp only at hr
          rw [lookup_mapDelete] at hr
          split at hr
          · exact Option.noConfusion hr
          · exact h _ _ hr
        · dsimp only at hr
          rw [lookup_mapSet] at hr
          split at hr
          · injection hr with heq
            rw [← heq]
            exact Nat.pos_of_ne_zero (by assumption)
          · exact h _ _ hr
    · exact h _ _ hr

theorem reachable_registryPositive (cfg : Config) (s : GState)
    (h : Reachable cfg s) : registryPositive s := by
  induction h with
  | init =>
    intro rid room hr
    exact Option.noConfusion hr
  | step e hprev ih =>
    exact stepG_registryPositive cfg _ e ih

/-- C5: in every reachable gateway state a registered room has a strictly
positive user count (the registry never holds an empty room); a `join-room`
on an unknown id creates the room and immediately adds one user; and the
`disconnect` step that removes a session's user deletes the room from the
registry exactly when the removal empties it (otherwise the room stays,
holding the shrunken user map). -/
theorem C5_registry_iff_users (cfg : Config) (s : GState)
    (hreach : Reachable cfg s) :
    registryPositive s
    ∧ (∀ (sid rid username : String) (now : Nat),
        s.rooms.lookup rid = none →
        ∃ room',
          (stepG cfg s (GEvent.joinRoom sid rid username now)).rooms.lookup rid
              = some room'
          ∧ room'.users.length = 1)
    ∧ (∀ (sid rid : String) (u : User) (room : Room),
        s.sessions.lookup sid
            = some { currentRoom := some rid, currentUser := some u } →
        s.rooms.lookup rid = some room →
        ((room.removeUser sid).users.length = 0 →
          (stepG cfg s (GEvent.disconnect sid)).rooms.lookup rid = none)
        ∧ (0 < (room.removeUser sid).users.length →
          (stepG cfg s (GEvent.disconnect sid)).rooms.lookup rid
            = some (room.removeUser sid))) := by
  refine ⟨reachable_registryPositive cfg s hreach, ?_, ?_⟩
  · intro sid rid username now hnone
    have h₁ : (getOrCreateRoom s.rooms rid now).lookup rid
        = some (Room.new rid now) := by
      unfold getOrCreateRoom
      rw [if_neg (by simp [hnone])]
      rw [lookup_mapSet, if_pos rfl]
    refine ⟨((Room.new rid now).addUser sid username now).2, ?_, ?_⟩
    · simp only [stepG, h₁]
      rw [lookup_mapSet, if_pos rfl]
    · rfl
  · intro sid rid u room hsess hroom
    constructor
    · intro hzero
      simp only [stepG, sessionOf, hsess, Option.getD_some, hroom]
      rw [if_pos hzero]
      dsimp only
      rw [lookup_mapDelete, if_pos rfl]
    · intro hpos
      simp only [stepG, sessionOf, hsess, Option.getD_some, hroom]
      rw [if_neg (by omega)]
      dsimp only
      rw [lookup_mapSet, if_pos rfl]

theorem C5_registry_iff_users_witness :
    0 < (((Room.new "R" 0).addUser "a" "Alice" 0).2).users.length :=
  (C5_registry_iff_users { roomHistoryLimit := 1000, chatMessageLimit := 100 }
      (stepG { roomHistoryLimit := 1000, chatMessageLimit := 100 }
        (stepG { roomHistoryLimit := 1000, chatMessageLimit := 100 } initG
          (GEvent.connect "a"))
        (GEvent.joinRoom "a" "R" "Alice" 0))
      (Reachable.step (GEvent.joinRoom "a" "R" "Alice" 0)
        (Reachable.step (GEvent.connect "a") Reachable.init))).1
    "R" (((Room.new "R" 0).addUser "a" "Alice" 0).2) (by decide)

end CodeEditor
